import Mathlib

/-!
Verification of `ElectronicStructureDriverResult`
(`qiskit_nature/properties/second_quantization/electronic/electronic_structure_driver_result.py`).

The class is a grouped property container: an ordered collection of named
property objects (keyed by property name, Python-dict semantics), a
distinguished `molecule` field, HDF5 (de)serialization by delegation, a
legacy-`QMolecule` converter, and an operator collector whose output shape
(list vs dict) follows the process-wide `settings.dict_aux_operators` flag,
modelled here as an explicit boolean argument.

Floating point coordinates are modelled by rationals; the opaque
`FermionicOp` payloads of the sub-properties are modelled by naturals.
-/

namespace QiskitNature

/-- An opaque stand-in for a second-quantized fermionic operator. -/
abbrev FermionicOp := Nat

/-- Modelled from the spec: a member of the grouped container is a named,
typed property object.  The classes `ElectronicEnergy`, `ParticleNumber`,
`AngularMomentum`, `Magnetization`, `ElectronicDipoleMoment`,
`ElectronicBasisTransform` and `DriverMetadata` are defined outside this
file; only the surface this file uses is modelled: the name (the key under
which `add_property` stores the object), whether the object is a
`SecondQuantizedProperty`, and its named second-quantized operators
(`second_q_ops` of the sub-property: in list mode the values in order, in
dict mode the name-to-operator mapping). -/
structure Property where
  name : String
  is_second_quantized : Bool
  ops : List (String × FermionicOp)
  deriving DecidableEq, Repr

/-- A molecule: geometry (atom symbol with coordinates), multiplicity and
charge.  Coordinates are rationals standing for the Python floats. -/
structure Molecule where
  geometry : List (String × List ℚ)
  multiplicity : ℤ
  charge : ℤ
  deriving DecidableEq, Repr

/-- The surface of the legacy `QMolecule` consumed by
`from_legacy_driver_result`. -/
structure QMolecule where
  atom_symbol : List String
  atom_xyz : List (List ℚ)
  multiplicity : ℤ
  molecular_charge : ℤ
  mo_coeff : List (List ℚ)
  mo_coeff_b : Option (List (List ℚ))
  origin_driver_name : String
  origin_driver_version : String
  origin_driver_config : String
  deriving DecidableEq, Repr

/-- An opaque stand-in for the unsupported legacy `WatsonHamiltonian`. -/
structure WatsonHamiltonian where
  data : Unit
  deriving DecidableEq, Repr

/-- `LegacyDriverResult = Union[QMolecule, WatsonHamiltonian]`. -/
inductive LegacyDriverResult where
  | qmolecule (q : QMolecule)
  | watsonHamiltonian (w : WatsonHamiltonian)
  deriving DecidableEq, Repr

/-- Modelled from the spec: the domain-specific error raised by
`SecondQuantizedProperty._validate_input_type` (defined outside this file)
when the legacy input is not of the accepted type. -/
inductive QiskitNatureError where
  | invalidInputType (msg : String)
  deriving DecidableEq, Repr

/-- The fixed Bohr-to-Angstrom conversion constant
(`qiskit_nature.constants.BOHR`), as a rational. -/
def BOHR : ℚ := 0.52917721092

/-- Modelled from the spec: `GroupedProperty.add_property` (defined outside
this file) stores the object under its name with Python-dict assignment
semantics: an existing key keeps its position and gets the new value, a new
key is appended. -/
def add_prop (ps : List Property) (p : Property) : List Property :=
  if ps.any (fun q => q.name = p.name) then
    ps.map (fun q => if q.name = p.name then p else q)
  else
    ps ++ [p]

/-- Modelled from the spec: `GroupedProperty.get_property` (defined outside
this file) looks a property up by its class name. -/
def get_property (ps : List Property) (n : String) : Option Property :=
  ps.find? (fun q => q.name = n)

/-- The `ElectronicStructureDriverResult` state: the generic property
collection of the grouped base plus the distinguished `molecule` field. -/
structure ElectronicStructureDriverResult where
  molecule : Option Molecule
  properties : List Property
  deriving DecidableEq, Repr

namespace ElectronicStructureDriverResult

/-- `__init__`: constructed empty, `molecule` starts out `None`. -/
def init : ElectronicStructureDriverResult := ⟨none, []⟩

/-- `add_property`, lifted to the whole instance: it only touches the
generic collection. -/
def add_property (r : ElectronicStructureDriverResult) (p : Property) :
    ElectronicStructureDriverResult :=
  { r with properties := add_prop r.properties p }

end ElectronicStructureDriverResult

/-- An entry of the HDF5 group written by `to_hdf5` and iterated by
`from_hdf5`: either a restored `Molecule` or a restored generic property. -/
inductive StoredItem where
  | molecule (m : Molecule)
  | prop (p : Property)
  deriving DecidableEq, Repr

/-- Whether a stored item is the molecule-typed entry
(the `isinstance(prop, Molecule)` check of `from_hdf5`). -/
def StoredItem.is_molecule : StoredItem → Bool
  | .molecule _ => true
  | .prop _ => false

/-- `to_hdf5`: delegates to the grouped base (one entry per property) and
then to `self.molecule.to_hdf5` on the same group.  When `molecule` is
unset (`None`) the delegation `self.molecule.to_hdf5(group)` fails
(`AttributeError` on `None`), modelled by `none`. -/
def to_hdf5 (r : ElectronicStructureDriverResult) : Option (List StoredItem) :=
  match r.molecule with
  | none => none
  | some m => some (r.properties.map StoredItem.prop ++ [StoredItem.molecule m])

/-- `from_hdf5`: iterates the restored grouped property, pulls any
molecule-typed entry into the `molecule` field and routes every other
entry through `add_property`. -/
def from_hdf5 (items : List StoredItem) : ElectronicStructureDriverResult :=
  items.foldl
    (fun ret item =>
      match item with
      | .molecule m => { ret with molecule := some m }
      | .prop p => ret.add_property p)
    ElectronicStructureDriverResult.init

/-- `from_hdf5`, instrumented with a count of the assignments
`ret.molecule = prop` it performs. -/
def from_hdf5_instr (items : List StoredItem) :
    ElectronicStructureDriverResult × Nat :=
  items.foldl
    (fun st item =>
      match item with
      | .molecule m => ({ st.1 with molecule := some m }, st.2 + 1)
      | .prop p => (st.1.add_property p, st.2))
    (ElectronicStructureDriverResult.init, 0)

/-- Modelled from the spec: `ElectronicEnergy.from_legacy_driver_result`
(defined outside this file) produces the `ElectronicEnergy` physical
property, a `SecondQuantizedProperty`, from the legacy result. -/
def electronic_energy_from_legacy (_q : QMolecule) : Property :=
  ⟨"ElectronicEnergy", true, [("ElectronicEnergy", 0)]⟩

/-- Modelled from the spec: `ParticleNumber.from_legacy_driver_result`
(defined outside this file) produces the `ParticleNumber` physical
property, a `SecondQuantizedProperty`, from the legacy result. -/
def particle_number_from_legacy (_q : QMolecule) : Property :=
  ⟨"ParticleNumber", true, [("ParticleNumber", 1)]⟩

/-- Modelled from the spec: `AngularMomentum.from_legacy_driver_result`
(defined outside this file) produces the `AngularMomentum` physical
property, a `SecondQuantizedProperty`, from the legacy result. -/
def angular_momentum_from_legacy (_q : QMolecule) : Property :=
  ⟨"AngularMomentum", true, [("AngularMomentum", 2)]⟩

/-- Modelled from the spec: `Magnetization.from_legacy_driver_result`
(defined outside this file) produces the `Magnetization` physical
property, a `SecondQuantizedProperty`, from the legacy result. -/
def magnetization_from_legacy (_q : QMolecule) : Property :=
  ⟨"Magnetization", true, [("Magnetization", 3)]⟩

/-- Modelled from the spec: `ElectronicDipoleMoment.from_legacy_driver_result`
(defined outside this file) produces the `ElectronicDipoleMoment` physical
property, a `SecondQuantizedProperty`, from the legacy result. -/
def electronic_dipole_moment_from_legacy (_q : QMolecule) : Property :=
  ⟨"ElectronicDipoleMoment", true, [("ElectronicDipoleMomentX", 4), ("ElectronicDipoleMomentY", 5), ("ElectronicDipoleMomentZ", 6)]⟩

/-- Modelled from the spec: the `ElectronicBasisTransform` built from the
raw molecular-orbital coefficient arrays (class defined outside this
file); it is a basis-transform property, not a `SecondQuantizedProperty`. -/
def electronic_basis_transform_prop (_q : QMolecule) : Property :=
  ⟨"ElectronicBasisTransform", false, []⟩

/-- Modelled from the spec: the `DriverMetadata` provenance property
(class defined outside this file) built from the origin driver name,
version and configuration; not a `SecondQuantizedProperty`. -/
def driver_metadata_prop (_q : QMolecule) : Property :=
  ⟨"DriverMetadata", false, []⟩

/-- `from_legacy_driver_result`: validates the input type, then adds the
five physical properties, the basis transform, the molecule (coordinates
scaled from Bohr to Angstrom) and the driver metadata, in source order. -/
def from_legacy_driver_result (result : LegacyDriverResult) :
    Except QiskitNatureError ElectronicStructureDriverResult :=
  match result with
  | .watsonHamiltonian _ =>
      .error (.invalidInputType "QMolecule expected")
  | .qmolecule qmol =>
      let ret := ElectronicStructureDriverResult.init
      let ret := ret.add_property (electronic_energy_from_legacy qmol)
      let ret := ret.add_property (particle_number_from_legacy qmol)
      let ret := ret.add_property (angular_momentum_from_legacy qmol)
      let ret := ret.add_property (magnetization_from_legacy qmol)
      let ret := ret.add_property (electronic_dipole_moment_from_legacy qmol)
      let ret := ret.add_property (electronic_basis_transform_prop qmol)
      let geometry : List (String × List ℚ) :=
        (qmol.atom_symbol.zip qmol.atom_xyz).map
          (fun a => (a.1, a.2.map (fun x => x * BOHR)))
      let ret := { ret with
        molecule := some ⟨geometry, qmol.multiplicity, qmol.molecular_charge⟩ }
      let ret := ret.add_property (driver_metadata_prop qmol)
      .ok ret

/-- The output of `second_q_ops`: `ListOrDictType[FermionicOp]`. -/
inductive ListOrDict (α : Type) where
  | list (l : List α)
  | dict (d : List (String × α))
  deriving DecidableEq, Repr

/-- Python-dict single-key assignment `d[k] = v`: an existing key keeps its
position and gets the new value, a new key is appended. -/
def dict_insert : List (String × FermionicOp) → String → FermionicOp →
    List (String × FermionicOp)
  | [], k, v => [(k, v)]
  | kv :: rest, k, v =>
      if kv.1 = k then (k, v) :: rest else kv :: dict_insert rest k v

/-- Python `d.update(e)`: assign every entry of `e` in order. -/
def dict_update (d e : List (String × FermionicOp)) :
    List (String × FermionicOp) :=
  e.foldl (fun acc kv => dict_insert acc kv.1 kv.2) d

/-- The fixed, ordered list of the five property classes iterated by the
list branch of `second_q_ops`. -/
def fixed_five : List String :=
  ["ElectronicEnergy", "ParticleNumber", "AngularMomentum",
   "Magnetization", "ElectronicDipoleMoment"]

/-- `second_q_ops`: with the flag unset (list mode), walks the fixed five
classes, skips a missing or non-`SecondQuantizedProperty` entry
(`continue`) and extends the list with the property's operators; with the
flag set (dict mode), walks every member of the group, skips
non-`SecondQuantizedProperty` members and `update`s the mapping with the
property's named operators. -/
def second_q_ops (dict_aux_operators : Bool)
    (r : ElectronicStructureDriverResult) : ListOrDict FermionicOp :=
  if !dict_aux_operators then
    .list (fixed_five.foldl
      (fun acc n =>
        match get_property r.properties n with
        | none => acc
        | some p =>
            if p.is_second_quantized then acc ++ p.ops.map Prod.snd else acc)
      [])
  else
    .dict (r.properties.foldl
      (fun acc p =>
        if p.is_second_quantized then dict_update acc p.ops else acc)
      [])

end QiskitNature

/-! ### Helper lemmas -/

/-- On a `QMolecule` input, the converter produces exactly the seven
properties in source order, and the molecule with scaled coordinates. -/
theorem QiskitNature.from_legacy_eq (q : QiskitNature.QMolecule) :
    QiskitNature.from_legacy_driver_result (.qmolecule q) = .ok
      { molecule := some
          ⟨(q.atom_symbol.zip q.atom_xyz).map
              (fun a => (a.1, a.2.map (fun x => x * QiskitNature.BOHR))),
            q.multiplicity, q.molecular_charge⟩,
        properties :=
          [QiskitNature.electronic_energy_from_legacy q,
           QiskitNature.particle_number_from_legacy q,
           QiskitNature.angular_momentum_from_legacy q,
           QiskitNature.magnetization_from_legacy q,
           QiskitNature.electronic_dipole_moment_from_legacy q,
           QiskitNature.electronic_basis_transform_prop q,
           QiskitNature.driver_metadata_prop q] } := by
  rfl

namespace QiskitNature

/-- C5: For every legacy input whose type is not the accepted `QMolecule`
type, `from_legacy_driver_result` fails with the domain-specific
invalid-input-type error before any conversion work, so no converted
result is produced. -/
theorem from_legacy_rejects_non_qmolecule (w : WatsonHamiltonian) :
    from_legacy_driver_result (.watsonHamiltonian w) =
      .error (QiskitNatureError.invalidInputType "QMolecule expected") := rfl

/-- C10: `to_hdf5` fails exactly when `molecule` is unset: with
`molecule = None` the delegation to the molecule's serialization fails,
and with `molecule` set this failure branch is unreachable and the full
group is written. -/
theorem to_hdf5_requires_molecule (r : ElectronicStructureDriverResult) :
    (r.molecule = none → to_hdf5 r = none) ∧
    (∀ m, r.molecule = some m →
      to_hdf5 r =
        some (r.properties.map StoredItem.prop ++ [StoredItem.molecule m])) := by
  constructor
  · intro h
    simp [to_hdf5, h]
  · intro m h
    simp [to_hdf5, h]

/-- Witness for `to_hdf5_requires_molecule` at concrete instances. -/
theorem to_hdf5_requires_molecule_witness :
    to_hdf5 ⟨none, []⟩ = none ∧
    to_hdf5 ⟨some ⟨[], 1, 0⟩, []⟩ = some [StoredItem.molecule ⟨[], 1, 0⟩] :=
  ⟨(to_hdf5_requires_molecule ⟨none, []⟩).1 rfl,
   (to_hdf5_requires_molecule ⟨some ⟨[], 1, 0⟩, []⟩).2 ⟨[], 1, 0⟩ rfl⟩

/-- C2: on every valid legacy input (a `QMolecule`), the converter
produces exactly five physical properties, exactly one basis-transform
property, exactly one metadata property, and exactly one molecule. -/
theorem from_legacy_driver_result_counts (q : QMolecule) :
    ∃ ret, from_legacy_driver_result (.qmolecule q) = .ok ret ∧
      ret.properties.countP (fun p => fixed_five.contains p.name) = 5 ∧
      ret.properties.countP (fun p => p.name = "ElectronicBasisTransform") = 1 ∧
      ret.properties.countP (fun p => p.name = "DriverMetadata") = 1 ∧
      ret.molecule.isSome = true := by
  refine ⟨_, from_legacy_eq q, ?_, ?_, ?_, rfl⟩ <;> rfl

/-- C4: every coordinate of the converted geometry is the legacy
coordinate times the Bohr-to-Angstrom constant, and a two-atom legacy
input yields a geometry of length two. -/
theorem from_legacy_geometry_scaled (q : QMolecule) :
    ∃ mol,
      (∃ ret, from_legacy_driver_result (.qmolecule q) = .ok ret ∧
        ret.molecule = some mol) ∧
      mol.geometry = (q.atom_symbol.zip q.atom_xyz).map
        (fun a => (a.1, a.2.map (fun x => x * BOHR))) ∧
      (∀ (i : ℕ) (a : String) (xyz : List ℚ),
        (q.atom_symbol.zip q.atom_xyz)[i]? = some (a, xyz) →
        mol.geometry[i]? = some (a, xyz.map (fun x => x * BOHR))) ∧
      (q.atom_symbol.length = 2 → q.atom_xyz.length = 2 →
        mol.geometry.length = 2) := by
  refine ⟨_, ⟨_, from_legacy_eq q, rfl⟩, rfl, ?_, ?_⟩
  · intro i a xyz h
    simp [List.getElem?_map, h]
  · intro hs hx
    simp [List.length_zip, hs, hx]

/-- Witness for `from_legacy_geometry_scaled` at a concrete two-atom
legacy input. -/
theorem from_legacy_geometry_scaled_witness :
    ∃ mol,
      (∃ ret, from_legacy_driver_result
          (.qmolecule ⟨["H", "H"], [[0, 0, 0], [0, 0, (1 : ℚ)]], 1, 0,
            [], none, "PYSCF", "1.0", "cfg"⟩) = .ok ret ∧
        ret.molecule = some mol) ∧
      mol.geometry = [("H", [0, 0, 0]), ("H", [0, 0, BOHR])] ∧
      mol.geometry.length = 2 := by
  obtain ⟨mol, hret, hgeo, -, hlen⟩ :=
    from_legacy_geometry_scaled
      ⟨["H", "H"], [[0, 0, 0], [0, 0, (1 : ℚ)]], 1, 0,
        [], none, "PYSCF", "1.0", "cfg"⟩
  refine ⟨mol, hret, ?_, hlen rfl rfl⟩
  rw [hgeo]
  norm_num [BOHR]

end QiskitNature

namespace QiskitNature

/-! ### The association-list model of the Python dict built in dict mode -/

/-- Python `d.get(k)` on the association-list model of a dict. -/
def lookupA : List (String × FermionicOp) → String → Option FermionicOp
  | [], _ => none
  | kv :: rest, k => if kv.1 = k then some kv.2 else lookupA rest k

/-- First-defined choice between two optional values. -/
def or_else (a b : Option FermionicOp) : Option FermionicOp :=
  match a with
  | some v => some v
  | none => b

/-- The last element of a list of operator values, if any. -/
def last_val : List FermionicOp → Option FermionicOp
  | [] => none
  | [v] => some v
  | _ :: v :: rest => last_val (v :: rest)

/-- The values contributed for key `k` by a sequence of named-operator
entries, in contribution order. -/
def contribs (e : List (String × FermionicOp)) (k : String) : List FermionicOp :=
  e.filterMap (fun kv => if kv.1 = k then some kv.2 else none)

theorem or_else_none_right (a : Option FermionicOp) : or_else a none = a := by
  cases a <;> rfl

theorem or_else_assoc (a b c : Option FermionicOp) :
    or_else (or_else a b) c = or_else a (or_else b c) := by
  cases a <;> rfl

theorem last_val_isSome (v : FermionicOp) (l : List FermionicOp) :
    ∃ w, last_val (v :: l) = some w := by
  induction l generalizing v with
  | nil => exact ⟨v, rfl⟩
  | cons b rest ih => exact ih b

theorem last_val_cons (a : FermionicOp) (l : List FermionicOp) :
    last_val (a :: l) = or_else (last_val l) (some a) := by
  cases l with
  | nil => rfl
  | cons b rest =>
      obtain ⟨w, hw⟩ := last_val_isSome b rest
      show last_val (b :: rest) = or_else (last_val (b :: rest)) (some a)
      rw [hw]
      rfl

theorem last_val_append (l₁ l₂ : List FermionicOp) :
    last_val (l₁ ++ l₂) = or_else (last_val l₂) (last_val l₁) := by
  induction l₁ with
  | nil => exact (or_else_none_right _).symm
  | cons a l₁ ih =>
      rw [List.cons_append, last_val_cons, ih, last_val_cons, or_else_assoc]

theorem lookupA_dict_insert_self (d : List (String × FermionicOp))
    (k : String) (v : FermionicOp) :
    lookupA (dict_insert d k v) k = some v := by
  induction d with
  | nil => simp [dict_insert, lookupA]
  | cons kv rest ih =>
      by_cases h : kv.1 = k
      · simp [dict_insert, h, lookupA]
      · simp [dict_insert, h, lookupA, ih]

theorem lookupA_dict_insert_ne (d : List (String × FermionicOp))
    (k : String) (v : FermionicOp) (x : String) (h : x ≠ k) :
    lookupA (dict_insert d k v) x = lookupA d x := by
  have hkx : ¬(k = x) := fun hh => h hh.symm
  induction d with
  | nil => simp only [dict_insert, lookupA, if_neg hkx]
  | cons kv rest ih =>
      by_cases hk : kv.1 = k
      · have h2 : ¬(kv.1 = x) := fun hh => hkx (hk ▸ hh)
        simp only [dict_insert, if_pos hk, lookupA, if_neg hkx, if_neg h2]
      · simp only [dict_insert, if_neg hk, lookupA]
        by_cases hx : kv.1 = x
        · simp [hx]
        · simp [hx, ih]

theorem lookupA_dict_update (e d : List (String × FermionicOp)) (k : String) :
    lookupA (dict_update d e) k =
      or_else (last_val (contribs e k)) (lookupA d k) := by
  induction e generalizing d with
  | nil => rfl
  | cons kv rest ih =>
      have hstep : dict_update d (kv :: rest) =
          dict_update (dict_insert d kv.1 kv.2) rest := rfl
      rw [hstep, ih]
      by_cases h : kv.1 = k
      · have hc : contribs (kv :: rest) k = kv.2 :: contribs rest k := by
          simp [contribs, h]
        rw [hc, last_val_cons, or_else_assoc]
        have : lookupA (dict_insert d kv.1 kv.2) k = some kv.2 := by
          rw [h]; exact lookupA_dict_insert_self d k kv.2
        rw [this]
        rfl
      · have hc : contribs (kv :: rest) k = contribs rest k := by
          simp [contribs, h]
        rw [hc, lookupA_dict_insert_ne d kv.1 kv.2 k (fun hh => h hh.symm)]

theorem mem_keys_dict_insert (d : List (String × FermionicOp))
    (k : String) (v : FermionicOp) (x : String)
    (h : x ∈ (dict_insert d k v).map Prod.fst) :
    x = k ∨ x ∈ d.map Prod.fst := by
  induction d with
  | nil =>
      simp [dict_insert] at h
      exact Or.inl h
  | cons kv rest ih =>
      by_cases hk : kv.1 = k
      · simp only [dict_insert, if_pos hk, List.map_cons, List.mem_cons] at h ⊢
        rcases h with h | h
        · exact Or.inl h
        · exact Or.inr (Or.inr h)
      · simp only [dict_insert, if_neg hk, List.map_cons, List.mem_cons] at h ⊢
        rcases h with h | h
        · exact Or.inr (Or.inl h)
        · rcases ih h with h | h
          · exact Or.inl h
          · exact Or.inr (Or.inr h)

theorem nodup_keys_dict_insert (d : List (String × FermionicOp))
    (k : String) (v : FermionicOp) (h : (d.map Prod.fst).Nodup) :
    ((dict_insert d k v).map Prod.fst).Nodup := by
  induction d with
  | nil => simp [dict_insert]
  | cons kv rest ih =>
      rw [List.map_cons, List.nodup_cons] at h
      by_cases hk : kv.1 = k
      · simp only [dict_insert, if_pos hk, List.map_cons, List.nodup_cons]
        exact ⟨hk ▸ h.1, h.2⟩
      · simp only [dict_insert, if_neg hk, List.map_cons, List.nodup_cons]
        refine ⟨fun hmem => ?_, ih h.2⟩
        rcases mem_keys_dict_insert rest k v kv.1 hmem with hh | hh
        · exact hk hh
        · exact h.1 hh

theorem nodup_keys_dict_update (e d : List (String × FermionicOp))
    (h : (d.map Prod.fst).Nodup) :
    ((dict_update d e).map Prod.fst).Nodup := by
  induction e generalizing d with
  | nil => exact h
  | cons kv rest ih => exact ih _ (nodup_keys_dict_insert d kv.1 kv.2 h)

end QiskitNature

namespace QiskitNature

/-! ### The operator collector -/

/-- The contribution of the property class named `n` to the list-mode
output: its operator values in order, or nothing when the class is missing
from the group or not a `SecondQuantizedProperty`. -/
def list_mode_contribution (r : ElectronicStructureDriverResult)
    (n : String) : List FermionicOp :=
  match get_property r.properties n with
  | none => []
  | some p => if p.is_second_quantized then p.ops.map Prod.snd else []

/-- All operator values contributed for key `k` by the
`SecondQuantizedProperty` members of the group, in iteration order. -/
def all_contribs (r : ElectronicStructureDriverResult) (k : String) :
    List FermionicOp :=
  contribs
    ((r.properties.filter (fun p => p.is_second_quantized)).flatMap
      Property.ops) k

theorem foldl_append_flatten (c : String → List FermionicOp)
    (l : List String) (a : List FermionicOp) :
    l.foldl (fun acc n => acc ++ c n) a = a ++ (l.map c).flatten := by
  induction l generalizing a with
  | nil => simp
  | cons n l ih => simp [ih, List.append_assoc]

theorem nodup_keys_dict_fold (ps : List Property)
    (acc : List (String × FermionicOp))
    (h : (acc.map Prod.fst).Nodup) :
    (((ps.foldl
        (fun acc p =>
          if p.is_second_quantized then dict_update acc p.ops else acc)
        acc)).map Prod.fst).Nodup := by
  induction ps generalizing acc with
  | nil => exact h
  | cons p rest ih =>
      by_cases hp : p.is_second_quantized
      · simpa [hp] using ih _ (nodup_keys_dict_update p.ops acc h)
      · simpa [hp] using ih _ h

theorem lookupA_dict_fold (ps : List Property)
    (acc : List (String × FermionicOp)) (k : String) :
    lookupA
      (ps.foldl
        (fun acc p =>
          if p.is_second_quantized then dict_update acc p.ops else acc)
        acc) k =
      or_else
        (last_val (contribs
          ((ps.filter (fun p => p.is_second_quantized)).flatMap Property.ops)
          k))
        (lookupA acc k) := by
  induction ps generalizing acc with
  | nil => rfl
  | cons p rest ih =>
      by_cases hp : p.is_second_quantized
      · rw [List.foldl_cons, if_pos hp, ih,
          List.filter_cons_of_pos (by simpa using hp), List.flatMap_cons]
        have hsplit : contribs (p.ops ++
            (rest.filter (fun p => p.is_second_quantized)).flatMap
              Property.ops) k =
            contribs p.ops k ++ contribs
              ((rest.filter (fun p => p.is_second_quantized)).flatMap
                Property.ops) k := by
          simp [contribs, List.filterMap_append]
        rw [hsplit, last_val_append, or_else_assoc,
          lookupA_dict_update p.ops acc k]
      · rw [List.foldl_cons, if_neg hp, ih,
          List.filter_cons_of_neg (by simpa using hp)]

/-- C3: in list mode the output is the concatenation, in the fixed
five-class order, of each present property's operators (a missing class
contributes nothing); in dict mode the returned mapping has no duplicate
keys. -/
theorem second_q_ops_modes_shape (r : ElectronicStructureDriverResult) :
    second_q_ops false r =
      .list ((fixed_five.map (list_mode_contribution r)).flatten) ∧
    ∃ d, second_q_ops true r = .dict d ∧ (d.map Prod.fst).Nodup := by
  constructor
  · show ListOrDict.list _ = _
    have hext : fixed_five.foldl
        (fun acc n =>
          match get_property r.properties n with
          | none => acc
          | some p =>
              if p.is_second_quantized then acc ++ p.ops.map Prod.snd
              else acc)
        [] =
        fixed_five.foldl (fun acc n => acc ++ list_mode_contribution r n)
          [] := by
      refine List.foldl_ext _ _ _ (fun acc n _ => ?_)
      unfold list_mode_contribution
      cases get_property r.properties n with
      | none => simp
      | some p => by_cases hp : p.is_second_quantized <;> simp [hp]
    rw [hext, foldl_append_flatten, List.nil_append]
  · exact ⟨_, rfl, nodup_keys_dict_fold r.properties [] List.nodup_nil⟩

/-- C6: in dict mode the merged mapping has last-write-wins semantics:
looking a key up in the result yields the value contributed last, across
the iteration of the group's second-quantized members. -/
theorem second_q_ops_last_write_wins (r : ElectronicStructureDriverResult)
    (k : String) :
    ∃ d, second_q_ops true r = .dict d ∧
      lookupA d k = last_val (all_contribs r k) := by
  refine ⟨_, rfl, ?_⟩
  rw [lookupA_dict_fold r.properties [] k]
  exact or_else_none_right _

end QiskitNature

namespace QiskitNature

/-! ### The two modes of the collector consult different members -/

/-- The group with its properties restricted to the fixed five classes. -/
def restrict_to_fixed (r : ElectronicStructureDriverResult) :
    ElectronicStructureDriverResult :=
  { r with properties :=
      r.properties.filter (fun p => fixed_five.contains p.name) }

theorem contains_of_mem_fixed_five (n : String) (hn : n ∈ fixed_five) :
    fixed_five.contains n = true := by
  simp [List.contains_eq_any_beq, List.any_eq_true]
  exact hn

theorem find?_filter_fixed (ps : List Property) (n : String)
    (hn : fixed_five.contains n = true) :
    (ps.filter (fun p => fixed_five.contains p.name)).find?
      (fun p => p.name = n) = ps.find? (fun p => p.name = n) := by
  induction ps with
  | nil => rfl
  | cons p rest ih =>
      by_cases hq : fixed_five.contains p.name = true
      · rw [List.filter_cons, if_pos hq]
        by_cases hpn : p.name = n
        · have hd : (decide (p.name = n)) = true := by simp [hpn]
          simp only [List.find?_cons, hd]
        · have hd : (decide (p.name = n)) = false := by simp [hpn]
          simp only [List.find?_cons, hd]
          exact ih
      · rw [List.filter_cons, if_neg hq]
        have hpn : ¬(p.name = n) := fun he => hq (he.symm ▸ hn)
        have hd : (decide (p.name = n)) = false := by simp [hpn]
        conv_rhs => rw [List.find?_cons, hd]
        exact ih

theorem get_property_restrict (r : ElectronicStructureDriverResult)
    (n : String) (hn : n ∈ fixed_five) :
    get_property (restrict_to_fixed r).properties n =
      get_property r.properties n :=
  find?_filter_fixed r.properties n (contains_of_mem_fixed_five n hn)

/-- A group holding a single second-quantized property stored outside the
fixed five classes. -/
def extra_group : ElectronicStructureDriverResult :=
  ⟨none, [⟨"ExtraProperty", true, [("extra", 7)]⟩]⟩

/-- C9: list mode only consults the five fixed classes (the output is
unchanged if the group is restricted to them), while dict mode consults
every second-quantized member; on a group holding one extra
second-quantized member the two modes return different operator
collections beyond their shape. -/
theorem second_q_ops_modes_consult_different_members :
    (∀ r, second_q_ops false r = second_q_ops false (restrict_to_fixed r)) ∧
    second_q_ops false extra_group = .list [] ∧
    second_q_ops true extra_group = .dict [("extra", 7)] := by
  refine ⟨fun r => ?_, by decide, by decide⟩
  simp only [second_q_ops, Bool.not_false, if_true]
  congr 1
  refine List.foldl_ext _ _ _ (fun acc n hn => ?_)
  rw [get_property_restrict r n hn]

/-! ### Round trip through the hierarchical store -/

theorem add_prop_of_not_mem (ps : List Property) (p : Property)
    (h : p.name ∉ ps.map Property.name) : add_prop ps p = ps ++ [p] := by
  unfold add_prop
  rw [if_neg]
  simp only [List.any_eq_true, decide_eq_true_eq, not_exists, not_and]
  intro q hq he
  exact h (List.mem_map.mpr ⟨q, hq, he⟩)

/-- `add_property` keeps the property names free of duplicates; the
property collection of every reachable instance therefore has
duplicate-free names. -/
theorem add_prop_names_nodup (ps : List Property) (p : Property)
    (h : (ps.map Property.name).Nodup) :
    ((add_prop ps p).map Property.name).Nodup := by
  unfold add_prop
  by_cases hc : ps.any (fun q => q.name = p.name) = true
  · rw [if_pos hc]
    have : (ps.map (fun q => if q.name = p.name then p else q)).map
        Property.name = ps.map Property.name := by
      rw [List.map_map]
      refine List.map_congr_left (fun q _ => ?_)
      by_cases hq : q.name = p.name
      · simp [hq]
      · simp [hq]
    rw [this]
    exact h
  · rw [if_neg hc]
    simp only [List.any_eq_true, decide_eq_true_eq, not_exists, not_and]
      at hc
    rw [List.map_append]
    rw [List.nodup_append]
    refine ⟨h, List.nodup_singleton _, ?_⟩
    intro a ha hb
    simp only [List.map_cons, List.map_nil, List.mem_singleton] at hb
    obtain ⟨q, hq, he⟩ := List.mem_map.mp ha
    exact hc q hq (hb ▸ he)

theorem from_hdf5_prop_items (ps : List Property)
    (r : ElectronicStructureDriverResult)
    (h : (r.properties.map Property.name ++ ps.map Property.name).Nodup) :
    (ps.map StoredItem.prop).foldl
      (fun ret item =>
        match item with
        | .molecule m => { ret with molecule := some m }
        | .prop p => ret.add_property p) r =
      ⟨r.molecule, r.properties ++ ps⟩ := by
  induction ps generalizing r with
  | nil => simp
  | cons p ps ih =>
      have hmem : p.name ∉ r.properties.map Property.name := by
        intro hc
        rw [List.nodup_append] at h
        exact h.2.2 hc (by simp)
      have hadd : r.add_property p = ⟨r.molecule, r.properties ++ [p]⟩ := by
        show ({ r with properties := add_prop r.properties p } :
          ElectronicStructureDriverResult) = _
        rw [add_prop_of_not_mem _ _ hmem]
      rw [List.map_cons, List.foldl_cons]
      show (ps.map StoredItem.prop).foldl _ (r.add_property p) = _
      rw [hadd, ih ⟨r.molecule, r.properties ++ [p]⟩
        (by simpa [List.append_assoc] using h)]
      simp

/-- C1: serializing an instance whose molecule is set and whose property
names are duplicate-free, then deserializing the stored group, returns the
instance itself: same molecule, same properties, same values. -/
theorem to_from_hdf5_round_trip (r : ElectronicStructureDriverResult)
    (m : Molecule) (hm : r.molecule = some m)
    (hnd : (r.properties.map Property.name).Nodup) :
    ∃ items, to_hdf5 r = some items ∧ from_hdf5 items = r := by
  refine ⟨r.properties.map StoredItem.prop ++ [StoredItem.molecule m],
    by simp [to_hdf5, hm], ?_⟩
  unfold from_hdf5
  rw [List.foldl_append,
    from_hdf5_prop_items r.properties ElectronicStructureDriverResult.init
      (by simpa [ElectronicStructureDriverResult.init] using hnd)]
  show ({ (⟨ElectronicStructureDriverResult.init.molecule,
      ElectronicStructureDriverResult.init.properties ++ r.properties⟩ :
      ElectronicStructureDriverResult) with molecule := some m }) = r
  cases r with
  | mk mol props =>
      cases hm
      rfl

/-- Witness for `to_from_hdf5_round_trip` at a concrete instance. -/
theorem to_from_hdf5_round_trip_witness :
    ∃ items,
      to_hdf5 ⟨some ⟨[("H", [0, 0, 0])], 1, 0⟩,
        [⟨"ElectronicEnergy", true, [("ElectronicEnergy", 0)]⟩]⟩ =
        some items ∧
      from_hdf5 items =
        ⟨some ⟨[("H", [0, 0, 0])], 1, 0⟩,
          [⟨"ElectronicEnergy", true, [("ElectronicEnergy", 0)]⟩]⟩ :=
  to_from_hdf5_round_trip _ ⟨[("H", [0, 0, 0])], 1, 0⟩ rfl (by decide)

end QiskitNature

namespace QiskitNature

/-! ### Molecule assignments across the operations -/

theorem from_hdf5_instr_count (items : List StoredItem)
    (st : ElectronicStructureDriverResult × Nat) :
    (items.foldl
      (fun st item =>
        match item with
        | .molecule m => ({ st.1 with molecule := some m }, st.2 + 1)
        | .prop p => (st.1.add_property p, st.2))
      st).2 = st.2 + items.countP StoredItem.is_molecule := by
  induction items generalizing st with
  | nil => simp
  | cons i rest ih =>
      cases i with
      | molecule m =>
          rw [List.foldl_cons, ih]
          simp [List.countP_cons, StoredItem.is_molecule]
          omega
      | prop p =>
          rw [List.foldl_cons, ih]
          simp [List.countP_cons, StoredItem.is_molecule]

theorem from_hdf5_instr_fst (items : List StoredItem)
    (st : ElectronicStructureDriverResult × Nat) :
    (items.foldl
      (fun st item =>
        match item with
        | .molecule m => ({ st.1 with molecule := some m }, st.2 + 1)
        | .prop p => (st.1.add_property p, st.2))
      st).1 =
    items.foldl
      (fun ret item =>
        match item with
        | .molecule m => { ret with molecule := some m }
        | .prop p => ret.add_property p)
      st.1 := by
  induction items generalizing st with
  | nil => rfl
  | cons i rest ih =>
      cases i with
      | molecule m => rw [List.foldl_cons, List.foldl_cons, ih]
      | prop p => rw [List.foldl_cons, List.foldl_cons, ih]

/-- C7: the molecule field starts unset, `add_property` never touches it,
the legacy converter sets it (once), and deserialization assigns it once
per molecule-typed entry of the group, so at most once on a well-formed
group and exactly once on a group written by `to_hdf5`. -/
theorem molecule_assigned_at_most_once (items : List StoredItem)
    (h : items.countP StoredItem.is_molecule ≤ 1) :
    (from_hdf5_instr items).2 ≤ 1 ∧
    (from_hdf5_instr items).1 = from_hdf5 items ∧
    ElectronicStructureDriverResult.init.molecule = none ∧
    (∀ r p, (ElectronicStructureDriverResult.add_property r p).molecule =
      r.molecule) ∧
    (∀ q ret, from_legacy_driver_result (.qmolecule q) = .ok ret →
      ret.molecule.isSome = true) ∧
    (∀ r m, r.molecule = some m →
      ∃ its, to_hdf5 r = some its ∧ (from_hdf5_instr its).2 = 1) := by
  refine ⟨?_, ?_, rfl, fun r p => rfl, ?_, ?_⟩
  · have hc : (from_hdf5_instr items).2 =
        0 + items.countP StoredItem.is_molecule :=
      from_hdf5_instr_count items (ElectronicStructureDriverResult.init, 0)
    omega
  · exact from_hdf5_instr_fst items _
  · intro q ret hq
    rw [from_legacy_eq] at hq
    cases hq
    rfl
  · intro r m hm
    refine ⟨r.properties.map StoredItem.prop ++ [StoredItem.molecule m],
      by simp [to_hdf5, hm], ?_⟩
    have hc : (from_hdf5_instr
        (r.properties.map StoredItem.prop ++ [StoredItem.molecule m])).2 =
        0 + (r.properties.map StoredItem.prop ++
          [StoredItem.molecule m]).countP StoredItem.is_molecule :=
      from_hdf5_instr_count _ (ElectronicStructureDriverResult.init, 0)
    rw [hc, List.countP_append, List.countP_map]
    have hz : List.countP (StoredItem.is_molecule ∘ StoredItem.prop)
        r.properties = 0 :=
      List.countP_eq_zero.mpr (fun p _ => by simp [StoredItem.is_molecule])
    rw [hz]
    rfl

/-- Witness for `molecule_assigned_at_most_once` at a concrete item
list. -/
theorem molecule_assigned_at_most_once_witness :
    (from_hdf5_instr [StoredItem.molecule ⟨[], 1, 0⟩]).2 ≤ 1 ∧
    (from_hdf5_instr [StoredItem.molecule ⟨[], 1, 0⟩]).1 =
      from_hdf5 [StoredItem.molecule ⟨[], 1, 0⟩] :=
  ⟨(molecule_assigned_at_most_once [StoredItem.molecule ⟨[], 1, 0⟩]
      (by decide)).1,
   (molecule_assigned_at_most_once [StoredItem.molecule ⟨[], 1, 0⟩]
      (by decide)).2.1⟩

theorem from_hdf5_fold_no_molecule (items : List StoredItem)
    (acc : ElectronicStructureDriverResult)
    (h : ∀ i ∈ items, i.is_molecule = false) :
    items.foldl
      (fun ret item =>
        match item with
        | .molecule m => { ret with molecule := some m }
        | .prop p => ret.add_property p)
      acc =
      ⟨acc.molecule,
       (items.filterMap
          (fun i =>
            match i with
            | .prop p => some p
            | .molecule _ => none)).foldl add_prop acc.properties⟩ := by
  induction items generalizing acc with
  | nil => simp
  | cons i rest ih =>
      cases i with
      | molecule m =>
          have hcontra := h (StoredItem.molecule m) (by simp)
          simp [StoredItem.is_molecule] at hcontra
      | prop p =>
          rw [List.foldl_cons]
          rw [ih (acc.add_property p) (fun i hi => h i (by simp [hi]))]
          rfl

/-- C8: when the deserialized group holds no molecule-typed entry,
`from_hdf5` succeeds with the molecule field unset, and every entry is
routed into the generic property collection. -/
theorem from_hdf5_without_molecule (items : List StoredItem)
    (h : ∀ i ∈ items, i.is_molecule = false) :
    (from_hdf5 items).molecule = none ∧
    (from_hdf5 items).properties =
      (items.filterMap
        (fun i =>
          match i with
          | .prop p => some p
          | .molecule _ => none)).foldl add_prop [] := by
  unfold from_hdf5
  rw [from_hdf5_fold_no_molecule items _ h]
  exact ⟨rfl, rfl⟩

/-- Witness for `from_hdf5_without_molecule` at a concrete molecule-free
item list. -/
theorem from_hdf5_without_molecule_witness :
    (from_hdf5 [StoredItem.prop ⟨"DriverMetadata", false, []⟩]).molecule =
      none ∧
    (from_hdf5 [StoredItem.prop ⟨"DriverMetadata", false, []⟩]).properties =
      [⟨"DriverMetadata", false, []⟩] := by
  obtain ⟨h1, h2⟩ :=
    from_hdf5_without_molecule [StoredItem.prop ⟨"DriverMetadata", false, []⟩]
      (by decide)
  refine ⟨h1, ?_⟩
  rw [h2]
  rfl

end QiskitNature
